import Mathlib

/-!
Shallow embedding of the native boundary declared in
`app/ios/NotificationService/notification_service_rust.h`. The header
declares four entry points (`process_new_messages`, `free_string`,
`init_background_logger`, `rust_log`) and nothing else; their behavior is
modelled from the specification of the minimal contract: the StringBridge
(callee-allocated result strings released exactly once through the paired
release function) and the ProcessLogger (a process-wide, one-time
initialized logger whose writes are serialized record appends).
-/

namespace NotificationService

/-- A byte string crossing the boundary: the bytes that precede the
terminating NUL of the C string. -/
abbrev Bytes := List Nat

/-- Whether a byte is a UTF-8 continuation byte (0x80..0xBF). -/
def isCont (b : Nat) : Bool := 0x80 ≤ b && b ≤ 0xBF

/-- Modelled from the spec: the "valid UTF-8" check on inputs at the
boundary (RFC 3629 well-formedness of the byte sequence); the real
implementation behind the header is not part of the repository sources. -/
def validUtf8 : Bytes → Bool
  | [] => true
  | b :: rest =>
    if b ≤ 0x7F then validUtf8 rest
    else if 0xC2 ≤ b && b ≤ 0xDF then
      match rest with
      | c1 :: rest1 => isCont c1 && validUtf8 rest1
      | [] => false
    else if b = 0xE0 then
      match rest with
      | c1 :: c2 :: rest2 =>
        (0xA0 ≤ c1 && c1 ≤ 0xBF) && isCont c2 && validUtf8 rest2
      | _ => false
    else if (0xE1 ≤ b && b ≤ 0xEC) || b = 0xEE || b = 0xEF then
      match rest with
      | c1 :: c2 :: rest2 => isCont c1 && isCont c2 && validUtf8 rest2
      | _ => false
    else if b = 0xED then
      match rest with
      | c1 :: c2 :: rest2 =>
        (0x80 ≤ c1 && c1 ≤ 0x9F) && isCont c2 && validUtf8 rest2
      | _ => false
    else if b = 0xF0 then
      match rest with
      | c1 :: c2 :: c3 :: rest3 =>
        (0x90 ≤ c1 && c1 ≤ 0xBF) && isCont c2 && isCont c3 && validUtf8 rest3
      | _ => false
    else if 0xF1 ≤ b && b ≤ 0xF3 then
      match rest with
      | c1 :: c2 :: c3 :: rest3 =>
        isCont c1 && isCont c2 && isCont c3 && validUtf8 rest3
      | _ => false
    else if b = 0xF4 then
      match rest with
      | c1 :: c2 :: c3 :: rest3 =>
        (0x80 ≤ c1 && c1 ≤ 0x8F) && isCont c2 && isCont c3 && validUtf8 rest3
      | _ => false
    else false

/-- Who owns a live allocation at the boundary: the host (the extension
calling in) or the native callee. -/
inductive Owner
  | host
  | callee
deriving DecidableEq

/-- One live heap allocation crossing the boundary. -/
structure Alloc where
  id : Nat
  owner : Owner
  bytes : Bytes
deriving DecidableEq

/-- The heap at the boundary: the live allocations and a fresh-id counter. -/
structure Heap where
  allocs : List Alloc
  nextId : Nat
deriving DecidableEq

/-- Heap well-formedness: every live allocation id is below the fresh-id
counter, so the counter really is fresh. -/
def Heap.WF (σ : Heap) : Prop := ∀ a ∈ σ.allocs, a.id < σ.nextId

instance : DecidablePred Heap.WF := fun σ =>
  decidable_of_iff (∀ a ∈ σ.allocs, a.id < σ.nextId) Iff.rfl

/-- Modelled from the spec: the documented sentinel result (the empty
string) substituted when no valid result exists; the implementation behind
the header is not in the repository sources. -/
def sentinel : Bytes := []

/-- Modelled from the spec: the byte-level result of the processing call.
The actual transformation is an external collaborator, taken here as the
parameter `t`; input that is not valid UTF-8 returns the sentinel, and the
empty input returns the documented deterministic sentinel. -/
def processBytes (t : Bytes → Bytes) (content : Bytes) : Bytes :=
  if validUtf8 content then
    if content = [] then sentinel else t content
  else sentinel

/-- Modelled from the spec: `process_new_messages` borrows `content`,
transforms it, and returns a newly allocated result whose ownership passes
to the host at return; the heap gains exactly that one fresh allocation. -/
def process_new_messages (t : Bytes → Bytes) (σ : Heap) (content : Bytes) :
    Heap × Alloc :=
  let res : Alloc := ⟨σ.nextId, .host, processBytes t content⟩
  (⟨res :: σ.allocs, σ.nextId + 1⟩, res)

/-- Outcome of a release call across the boundary. -/
inductive FreeOutcome
  | ok
  | undefinedBehavior
deriving DecidableEq

/-- Modelled from the spec: `free_string` releases a value previously
returned by the processing call; a pointer that is not a live allocation is
a caller error (undefined behavior), not a recoverable condition. -/
def free_string (σ : Heap) (h : Nat) : Heap × FreeOutcome :=
  if σ.allocs.any (fun a => a.id == h) then
    (⟨σ.allocs.filter (fun a => !(a.id == h)), σ.nextId⟩, .ok)
  else (σ, .undefinedBehavior)

/-- The ProcessLogger phase: the one-way state machine
Uninitialized → Initialized. -/
inductive Phase
  | uninitialized
  | initialized
deriving DecidableEq

/-- The log sink: the requested file, or the default fallback sink used
when the requested path cannot be opened. -/
inductive Sink
  | file (path : Bytes)
  | fallback
deriving DecidableEq

/-- The closed severity enumeration, with an `unknown` fallback variant for
out-of-range codes. -/
inductive Severity
  | trace
  | debug
  | info
  | warn
  | error
  | unknown
deriving DecidableEq

/-- Modelled from the spec: map the uint8 severity code to the closed
enumeration; codes outside the five named severities map to `unknown`
rather than being rejected. -/
def severityOfLevel (n : Nat) : Severity :=
  if n = 0 then .trace
  else if n = 1 then .debug
  else if n = 2 then .info
  else if n = 3 then .warn
  else if n = 4 then .error
  else .unknown

/-- One complete record written to the sink. -/
structure Record where
  level : Severity
  message : Bytes
deriving DecidableEq

/-- The process-wide logger state. -/
structure Logger where
  phase : Phase
  sink : Option Sink
  records : List Record
deriving DecidableEq

/-- The logger before any initialization. -/
def Logger.start : Logger := ⟨.uninitialized, none, []⟩

/-- Modelled from the spec: opening the log sink at a path, the one
internal operation that can fail; `writable` is the environment deciding
which paths can be opened for writing. -/
def openSink (writable : Bytes → Bool) (p : Bytes) : Except Unit Sink :=
  if writable p then .ok (.file p) else .error ()

/-- Modelled from the spec: `init_background_logger` is a one-time
initialization guard over the process-wide sink; a second call is a no-op,
and an unopenable path is caught and converted to the default fallback sink
instead of terminating the host. -/
def init_background_logger (writable : Bytes → Bool) (σ : Logger)
    (p : Bytes) : Logger :=
  match σ.phase with
  | .initialized => σ
  | .uninitialized =>
    match openSink writable p with
    | .ok s => ⟨.initialized, some s, σ.records⟩
    | .error _ => ⟨.initialized, some .fallback, σ.records⟩

/-- Modelled from the spec: `rust_log` truncates the level to uint8 at the
boundary, appends one complete record atomically when initialized (writes
are serialized), and is a silent no-op before initialization. -/
def rust_log (σ : Logger) (level : Nat) (message : Bytes) : Logger :=
  match σ.phase with
  | .uninitialized => σ
  | .initialized =>
    { σ with records := σ.records ++ [⟨severityOfLevel (level % 256), message⟩] }

/-- A call to one of the logger entry points. -/
inductive LoggerCall
  | init (path : Bytes)
  | log (level : Nat) (message : Bytes)

/-- One call applied to the logger state. -/
def stepLogger (writable : Bytes → Bool) (σ : Logger) : LoggerCall → Logger
  | .init p => init_background_logger writable σ p
  | .log lvl m => rust_log σ lvl m

/-- A sequence of calls applied in order. -/
def runLogger (writable : Bytes → Bool) (σ : Logger) :
    List LoggerCall → Logger
  | [] => σ
  | c :: cs => runLogger writable (stepLogger writable σ c) cs

/-- One log message at the boundary: the severity code and message bytes. -/
abbrev LogMsg := Nat × Bytes

/-- The record a single `rust_log` call writes for a message. -/
def mkRecord (m : LogMsg) : Record := ⟨severityOfLevel (m.1 % 256), m.2⟩

/-- A batch of `rust_log` calls applied in order. -/
def runLogs (σ : Logger) : List LogMsg → Logger
  | [] => σ
  | m :: ms => runLogs (rust_log σ m.1 m.2) ms

/-- A binary interleaving (shuffle) of two sequences that preserves the
order within each one. -/
inductive Shuffle {α : Type} : List α → List α → List α → Prop
  | nil : Shuffle [] [] []
  | left {x : α} {xs ys zs : List α} :
      Shuffle xs ys zs → Shuffle (x :: xs) ys (x :: zs)
  | right {y : α} {xs ys zs : List α} :
      Shuffle xs ys zs → Shuffle xs (y :: ys) (y :: zs)

/-- A global order that interleaves the per-context call sequences,
preserving each context's program order. -/
inductive InterleavingOf {α : Type} : List (List α) → List α → Prop
  | nil : InterleavingOf [] []
  | cons {l : List α} {ls : List (List α)} {rest out : List α} :
      InterleavingOf ls rest → Shuffle l rest out →
      InterleavingOf (l :: ls) out

/-- A concrete two-context logger scenario used to instantiate theorems. -/
def wLogger : Logger := ⟨.initialized, some .fallback, []⟩

/-- Two contexts with one distinct message each. -/
def wBatches : List (List LogMsg) := [[(1, [97])], [(2, [98])]]

/-- One interleaving of `wBatches`. -/
def wSeq : List LogMsg := [(1, [97]), (2, [98])]

/-- A concrete one-allocation heap used to instantiate theorems. -/
def wHeap : Heap := ⟨[⟨0, .host, [104]⟩], 1⟩

/-- The caller-owned input allocation living in `wHeap`. -/
def wInput : Alloc := ⟨0, .host, [104]⟩

theorem validUtf8_processBytes (t : Bytes → Bytes) (content : Bytes)
    (ht : ∀ s, validUtf8 (t s) = true) :
    validUtf8 (processBytes t content) = true := by
  unfold processBytes
  split
  · split
    · rfl
    · exact ht content
  · rfl

theorem init_phase (writable : Bytes → Bool) (σ : Logger) (p : Bytes) :
    (init_background_logger writable σ p).phase = .initialized := by
  obtain ⟨ph, sk, rs⟩ := σ
  cases ph
  · cases h : writable p <;> simp [init_background_logger, openSink, h]
  · rfl

theorem rust_log_phase (σ : Logger) (lvl : Nat) (msg : Bytes) :
    (rust_log σ lvl msg).phase = σ.phase := by
  obtain ⟨ph, sk, rs⟩ := σ
  cases ph <;> rfl

theorem rust_log_of_uninitialized (σ : Logger) (lvl : Nat) (msg : Bytes)
    (h : σ.phase = .uninitialized) : rust_log σ lvl msg = σ := by
  obtain ⟨ph, sk, rs⟩ := σ
  cases ph
  · rfl
  · simp at h

theorem rust_log_of_initialized (σ : Logger) (lvl : Nat) (msg : Bytes)
    (h : σ.phase = .initialized) :
    rust_log σ lvl msg
      = ⟨.initialized, σ.sink, σ.records ++ [mkRecord (lvl, msg)]⟩ := by
  obtain ⟨ph, sk, rs⟩ := σ
  cases ph
  · simp at h
  · rfl

theorem runLogger_phase_initialized (writable : Bytes → Bool)
    (calls : List LoggerCall) :
    ∀ σ : Logger, σ.phase = .initialized →
      (runLogger writable σ calls).phase = .initialized := by
  induction calls with
  | nil => intro σ h; exact h
  | cons c cs ih =>
    intro σ h
    simp only [runLogger]
    refine ih _ ?_
    cases c with
    | init p => exact init_phase writable σ p
    | log lvl m =>
      show (rust_log σ lvl m).phase = Phase.initialized
      rw [rust_log_phase]
      exact h

theorem runLogs_records (ms : List LogMsg) :
    ∀ σ : Logger, σ.phase = .initialized →
      runLogs σ ms = { σ with records := σ.records ++ ms.map mkRecord } := by
  induction ms with
  | nil => intro σ h; simp [runLogs]
  | cons m ms ih =>
    intro σ h
    simp only [runLogs]
    rw [rust_log_of_initialized σ m.1 m.2 h,
      ih ⟨.initialized, σ.sink, σ.records ++ [mkRecord (m.1, m.2)]⟩ rfl]
    simp [h]

theorem Shuffle.perm_append {α : Type} {xs ys zs : List α} (h : Shuffle xs ys zs) :
    zs.Perm (xs ++ ys) := by
  induction h with
  | nil => exact List.Perm.refl []
  | left h ih => exact ih.cons _
  | right h ih => exact (ih.cons _).trans List.perm_middle.symm

theorem InterleavingOf.perm_flatten {α : Type} {lss : List (List α)} {out : List α}
    (h : InterleavingOf lss out) : out.Perm lss.flatten := by
  induction h with
  | nil => exact List.Perm.refl []
  | cons hrest hsh ih => exact hsh.perm_append.trans (List.Perm.append_left _ ih)

theorem sum_lengths_const {α : Type} (M : Nat) (lss : List (List α))
    (h : ∀ l ∈ lss, l.length = M) : lss.flatten.length = lss.length * M := by
  induction lss with
  | nil => simp
  | cons l ls ih =>
    have hl := h l (List.mem_cons_self _ _)
    have hrest := ih (fun x hx => h x (List.mem_cons_of_mem _ hx))
    simp only [List.flatten_cons, List.length_append, List.length_cons, hl, hrest]
    ring

/-- C1: for every valid UTF-8 input, the string returned by
`process_new_messages` is released without error by one `free_string` call
on it: the call reports success and the heap returns exactly to its prior
live set (no leak, no crash), through the designated release function. -/
theorem release_after_process_ok (t : Bytes → Bytes) (σ : Heap) (s : Bytes)
    (hwf : σ.WF) (hs : validUtf8 s = true) :
    free_string (process_new_messages t σ s).1 (process_new_messages t σ s).2.id
      = (⟨σ.allocs, σ.nextId + 1⟩, FreeOutcome.ok) := by
  have hkeep : σ.allocs.filter (fun a => !(a.id == σ.nextId)) = σ.allocs := by
    refine List.filter_eq_self.mpr ?_
    intro a ha
    simpa using Nat.ne_of_lt (hwf a ha)
  show free_string ⟨⟨σ.nextId, .host, processBytes t s⟩ :: σ.allocs, σ.nextId + 1⟩
      σ.nextId = _
  simp [free_string, hkeep]

theorem release_after_process_ok_wit :
    free_string (process_new_messages (fun b => b) wHeap [104]).1
        (process_new_messages (fun b => b) wHeap [104]).2.id
      = (⟨wHeap.allocs, wHeap.nextId + 1⟩, FreeOutcome.ok) :=
  release_after_process_ok (fun b => b) wHeap [104] (by decide) (by decide)

/-- C2: on a null-terminated input, `process_new_messages` returns a newly
allocated result whose ownership is the host's at return: its id is fresh
(live in no prior allocation and distinct from the caller-owned input
allocation), it is live in the post heap, and its bytes are valid UTF-8
whenever the external transformer produces valid UTF-8. -/
theorem process_new_messages_fresh (t : Bytes → Bytes) (σ : Heap)
    (inp : Alloc) (hwf : σ.WF) (hin : inp ∈ σ.allocs)
    (ht : ∀ s, validUtf8 (t s) = true) :
    (process_new_messages t σ inp.bytes).2.owner = Owner.host
    ∧ (∀ a ∈ σ.allocs, a.id ≠ (process_new_messages t σ inp.bytes).2.id)
    ∧ (process_new_messages t σ inp.bytes).2.id ≠ inp.id
    ∧ (process_new_messages t σ inp.bytes).2
        ∈ (process_new_messages t σ inp.bytes).1.allocs
    ∧ validUtf8 (process_new_messages t σ inp.bytes).2.bytes = true := by
  refine ⟨rfl, ?_, ?_, ?_, ?_⟩
  · intro a ha
    exact Nat.ne_of_lt (hwf a ha)
  · exact (Nat.ne_of_lt (hwf inp hin)).symm
  · exact List.mem_cons_self _ _
  · exact validUtf8_processBytes t inp.bytes ht

theorem process_new_messages_fresh_wit :
    (process_new_messages (fun _ => ([] : Bytes)) wHeap wInput.bytes).2.owner
        = Owner.host
    ∧ (∀ a ∈ wHeap.allocs,
        a.id ≠ (process_new_messages (fun _ => ([] : Bytes)) wHeap wInput.bytes).2.id)
    ∧ (process_new_messages (fun _ => ([] : Bytes)) wHeap wInput.bytes).2.id
        ≠ wInput.id
    ∧ (process_new_messages (fun _ => ([] : Bytes)) wHeap wInput.bytes).2
        ∈ (process_new_messages (fun _ => ([] : Bytes)) wHeap wInput.bytes).1.allocs
    ∧ validUtf8 (process_new_messages (fun _ => ([] : Bytes)) wHeap wInput.bytes).2.bytes
        = true :=
  process_new_messages_fresh (fun _ => ([] : Bytes)) wHeap wInput
    (by decide) (by decide) (fun s => rfl)

/-- C3: an unopenable log path is an internal failure that is caught and
converted: `init_background_logger` still returns, leaving an initialized
logger on the default fallback sink, and a subsequent `rust_log` call also
returns normally, appending one record. -/
theorem init_unopenable_no_crash (writable : Bytes → Bool) (σ : Logger)
    (p : Bytes) (lvl : Nat) (msg : Bytes)
    (hw : writable p = false) (hph : σ.phase = .uninitialized) :
    openSink writable p = .error ()
    ∧ (init_background_logger writable σ p).phase = .initialized
    ∧ (init_background_logger writable σ p).sink = some .fallback
    ∧ (rust_log (init_background_logger writable σ p) lvl msg).records
        = σ.records ++ [mkRecord (lvl, msg)] := by
  obtain ⟨ph, sk, rs⟩ := σ
  cases ph
  · refine ⟨by simp [openSink, hw], ?_, ?_, ?_⟩ <;>
      simp [init_background_logger, openSink, hw, rust_log, mkRecord]
  · simp at hph

theorem init_unopenable_no_crash_wit :
    openSink (fun _ => false) [47] = .error ()
    ∧ (init_background_logger (fun _ => false) Logger.start [47]).phase
        = .initialized
    ∧ (init_background_logger (fun _ => false) Logger.start [47]).sink
        = some .fallback
    ∧ (rust_log (init_background_logger (fun _ => false) Logger.start [47])
          2 [104]).records
        = Logger.start.records ++ [mkRecord (2, [104])] :=
  init_unopenable_no_crash (fun _ => false) Logger.start [47] 2 [104] rfl rfl

/-- C4 as stated is refuted at the concrete input []: the empty input is
valid UTF-8, yet the call returns the sentinel (exactly as documented for
the empty input), so "returns a sentinel if and only if the input is not
valid text" fails in the only-if direction; the transformer used here is
not degenerate, as the third conjunct shows. -/
theorem process_sentinel_iff_invalid_cex :
    validUtf8 [] = true
    ∧ (process_new_messages (fun b => 104 :: b) ⟨[], 0⟩ []).2.bytes = sentinel
    ∧ (process_new_messages (fun b => 104 :: b) ⟨[], 0⟩ [104]).2.bytes
        ≠ sentinel := by
  decide

/-- C4 amended: for every input that is not valid UTF-8 text, the call
returns the sentinel instead of aborting; a sentinel may additionally be
returned for some valid inputs, the empty input in particular. -/
theorem process_sentinel_on_invalid (t : Bytes → Bytes) (σ : Heap)
    (s : Bytes) (h : validUtf8 s = false) :
    (process_new_messages t σ s).2.bytes = sentinel
    ∧ (process_new_messages t σ []).2.bytes = sentinel := by
  constructor
  · show processBytes t s = sentinel
    unfold processBytes
    simp [h]
  · rfl

theorem process_sentinel_on_invalid_wit :
    (process_new_messages (fun b => b) wHeap [255]).2.bytes = sentinel
    ∧ (process_new_messages (fun b => b) wHeap []).2.bytes = sentinel :=
  process_sentinel_on_invalid (fun b => b) wHeap [255] (by decide)

/-- C5: `init_background_logger` is idempotent: the one-time guard makes a
second call with the same path a no-op, so two calls leave the logger in
exactly the state one call does — no duplicated sink. -/
theorem init_background_logger_idempotent (writable : Bytes → Bool)
    (σ : Logger) (p : Bytes) :
    init_background_logger writable (init_background_logger writable σ p) p
      = init_background_logger writable σ p := by
  obtain ⟨ph, sk, rs⟩ := σ
  cases ph
  · cases h : writable p <;> simp [init_background_logger, openSink, h]
  · rfl

/-- C6: the logger phase moves only one way: once initialized, no sequence
of `init_background_logger` and `rust_log` calls ever returns it to
uninitialized; and a `rust_log` issued while still uninitialized is a
silent no-op on the whole state. -/
theorem logger_one_way (writable : Bytes → Bool) (σ : Logger)
    (calls : List LoggerCall) (lvl : Nat) (msg : Bytes) :
    (σ.phase = .initialized →
      (runLogger writable σ calls).phase = .initialized)
    ∧ (σ.phase = .uninitialized → rust_log σ lvl msg = σ) :=
  ⟨fun h => runLogger_phase_initialized writable calls σ h,
   fun h => rust_log_of_uninitialized σ lvl msg h⟩

/-- C7: with writes serialized as atomic record appends, any interleaving
of N contexts each issuing M distinct messages ends with the sink holding
exactly the prior records plus N*M complete appended records: each appended
record is the image of one issued message (none torn), and together they
are a permutation of all N*M issued messages' records. -/
theorem rust_log_concurrent_complete (σ : Logger)
    (msgss : List (List LogMsg)) (seq : List LogMsg) (N M : Nat)
    (hph : σ.phase = .initialized)
    (hN : msgss.length = N) (hM : ∀ l ∈ msgss, l.length = M)
    (hdist : msgss.flatten.Nodup)
    (hint : InterleavingOf msgss seq) :
    (runLogs σ seq).records = σ.records ++ seq.map mkRecord
    ∧ (runLogs σ seq).records.length = σ.records.length + N * M
    ∧ (seq.map mkRecord).Perm (msgss.flatten.map mkRecord) := by
  have hrun := runLogs_records seq σ hph
  have hperm := hint.perm_flatten
  have hlen : seq.length = N * M := by
    rw [hperm.length_eq, sum_lengths_const M msgss hM, hN]
  refine ⟨by rw [hrun], ?_, hperm.map mkRecord⟩
  rw [hrun]
  simp [hlen]

theorem rust_log_concurrent_complete_wit :
    (runLogs wLogger wSeq).records = wLogger.records ++ wSeq.map mkRecord
    ∧ (runLogs wLogger wSeq).records.length
        = wLogger.records.length + 2 * 1
    ∧ (wSeq.map mkRecord).Perm (wBatches.flatten.map mkRecord) :=
  rust_log_concurrent_complete wLogger wBatches wSeq 2 1 rfl rfl
    (by decide) (by decide)
    (.cons (.cons .nil (.left .nil)) (.left (.right .nil)))

/-- C8: frame property of `process_new_messages`: the call only pushes one
fresh host-owned allocation onto the heap; every prior allocation — the
caller-owned input among them — is preserved verbatim (never freed, mutated
or retained by the callee beyond the call). -/
theorem process_new_messages_frame (t : Bytes → Bytes) (σ : Heap)
    (content : Bytes) :
    (process_new_messages t σ content).1
      = ⟨⟨σ.nextId, .host, processBytes t content⟩ :: σ.allocs,
          σ.nextId + 1⟩ := rfl

/-- C9: the empty input is deterministic: any two calls of
`process_new_messages` on the empty string — from any heap states, with any
transformers — return the same documented sentinel bytes. -/
theorem process_empty_deterministic (t₁ t₂ : Bytes → Bytes)
    (σ₁ σ₂ : Heap) :
    (process_new_messages t₁ σ₁ []).2.bytes = sentinel
    ∧ (process_new_messages t₁ σ₁ []).2.bytes
        = (process_new_messages t₂ σ₂ []).2.bytes :=
  ⟨rfl, rfl⟩

/-- C10: `rust_log` is total on the whole uint8 severity domain: for every
level 0..255 and any message, the call returns normally and appends one
complete record with the mapped severity; levels outside the five named
severities map to the `unknown` fallback rather than being rejected. -/
theorem rust_log_total_uint8 (σ : Logger) (lvl : Nat) (msg : Bytes)
    (hlvl : lvl ≤ 255) (hph : σ.phase = .initialized) :
    (rust_log σ lvl msg).records
        = σ.records ++ [⟨severityOfLevel lvl, msg⟩]
    ∧ (5 ≤ lvl → severityOfLevel lvl = .unknown) := by
  have hmod : lvl % 256 = lvl := Nat.mod_eq_of_lt (Nat.lt_succ_of_le hlvl)
  constructor
  · rw [rust_log_of_initialized σ lvl msg hph]
    simp [mkRecord, hmod]
  · intro h5
    have h0 : lvl ≠ 0 := by omega
    have h1 : lvl ≠ 1 := by omega
    have h2 : lvl ≠ 2 := by omega
    have h3 : lvl ≠ 3 := by omega
    have h4 : lvl ≠ 4 := by omega
    simp [severityOfLevel, h0, h1, h2, h3, h4]

theorem rust_log_total_uint8_wit :
    (rust_log wLogger 200 [104]).records
        = wLogger.records ++ [⟨severityOfLevel 200, [104]⟩]
    ∧ (5 ≤ 200 → severityOfLevel 200 = .unknown) :=
  rust_log_total_uint8 wLogger 200 [104] (by decide) rfl

end NotificationService
